import Mathlib

/-
Verification development for the go-e2e containerized test runner
(github.com/snormore/go-e2e).  The definitions below are a shallow
embedding of the orchestrator in runner.go (the TestRunnerConfig-based
runner, runner.go lines 287-702 of the concatenated source), of its test
discovery (getTestsToRun, runner.go:473-542), of the container name
sanitizer (runner.go:691-702), and of the goroutine/semaphore dispatch
structure of RunTests (runner.go:561-579).

External collaborators (docker, the Go parser, go/build/constraint,
math/rand) are represented at their interface boundary: a test's
container exit status is an oracle `String → Bool`, elapsed durations are
an oracle `String → Nat`, a parsed Go source file is the data the repo
reads off the `go/ast` tree (comment groups with positions, the package
clause position, top-level declarations), and `rand.Intn(65536)` is a
parameter below 65536.
-/

namespace GoE2E

/-- RunState embeds the shared mutable result state of TestRunner
(runner.go:333-338): failedTests, passedTests, incompleteTests, the
testTimings map (modelled as an association list with Go map
assignment semantics), and the context-cancellation flag set by
`cancel()` within runTest. -/
structure RunState where
  failedTests : List String
  passedTests : List String
  incompleteTests : List String
  testTimings : List (String × Nat)
  cancelled : Bool
  deriving DecidableEq, Repr

/-- Initial run state: all lists empty, `r.testTimings = make(map...)`
(runner.go:549), context not cancelled. -/
def initState : RunState := ⟨[], [], [], [], false⟩

/-- Go map assignment `m[k] = v`: overwrite the entry if the key is
present, otherwise add it. -/
def mapUpdate (m : List (String × Nat)) (k : String) (v : Nat) : List (String × Nat) :=
  if k ∈ m.map Prod.fst then
    m.map (fun p => if p.1 = k then (k, v) else p)
  else m ++ [(k, v)]

/-- Keys of the timing map. -/
def mapKeys (m : List (String × Nat)) : List String := m.map Prod.fst

/-- strings.HasSuffix of the Go standard library, over the rune
sequences of the two strings. -/
def goEndsWith (s sfx : String) : Bool := sfx.data.isSuffixOf s.data

/-- strings.HasPrefix of the Go standard library, over the rune
sequences of the two strings. -/
def goStartsWith (s pre : String) : Bool := pre.data.isPrefixOf s.data

/-- Whitespace runes removed by strings.TrimSpace of the Go standard
library: the ASCII space characters and the two Latin-1 space runes. -/
def goIsSpace (c : Char) : Bool :=
  c == ' ' || c == '\t' || c == '\n' || c == '\x0b' || c == '\x0c' || c == '\r' ||
    c == '\x85' || c == '\xa0'

/-- strings.TrimSpace of the Go standard library, over the rune
sequence: drop leading and trailing whitespace runes. -/
def goTrimSpace (s : String) : String :=
  ⟨((s.data.dropWhile goIsSpace).reverse.dropWhile goIsSpace).reverse⟩

/-- The incomplete-set computation of runTest (runner.go:622-643): walk
testsToRun, trim each name with strings.TrimSpace, skip empty names and
the currently failing test, skip names found in passedTests or
failedTests by the linear `ran` searches, and append the rest to
incompleteTests in order. -/
def incompleteOf (testsToRun passedL failedL : List String) (test : String) : List String :=
  (testsToRun.map goTrimSpace).filter
    (fun t => decide (¬(t = "" ∨ t = test) ∧ ¬(t ∈ passedL ∨ t ∈ failedL)))

/-- recordOutcome embeds the locked critical sections of runTest
(runner.go:617-662), the code run once `cmd.Run()` has returned: on
failure, if failedTests is empty and fail-fast is live (`!NoFastFail`),
cancel the context and record the incomplete set, then append the test
to failedTests and write its duration; on success append to passedTests
and write the duration.  The whole update is one atomic step, matching
the single mu.Lock()/mu.Unlock() window around each branch. -/
def recordOutcome (noFastFail : Bool) (testsToRun : List String) (s : RunState)
    (test : String) (passed : Bool) (dur : Nat) : RunState :=
  if passed then
    { s with passedTests := s.passedTests ++ [test],
             testTimings := mapUpdate s.testTimings test dur }
  else
    let s1 :=
      if s.failedTests = [] then
        if noFastFail then s
        else
          { s with cancelled := true,
                   incompleteTests :=
                     s.incompleteTests ++ incompleteOf testsToRun s.passedTests s.failedTests test }
      else s
    { s1 with failedTests := s1.failedTests ++ [test],
              testTimings := mapUpdate s1.testTimings test dur }

/-- ExecutionOutcome at the orchestrator boundary: the identifier, the
success bit of the container process, and its elapsed duration. -/
structure Outcome where
  test : String
  ok : Bool
  dur : Nat
  deriving DecidableEq, Repr

/-- A run seen as the sequence of completing Execution Units: the
shared state is the fold of recordOutcome over the completion-order
event list.  This models any interleaving of the parallel workers of
RunTests, since every state mutation happens inside one lock. -/
def runEvents (noFastFail : Bool) (testsToRun : List String) (events : List Outcome) : RunState :=
  events.foldl (fun s e => recordOutcome noFastFail testsToRun s e.test e.ok e.dur) initState

/-- One sequential runTest call (runner.go:565, NoParallel mode): the
docker run is started with exec.CommandContext, so once `cancel()` has
been called the command fails immediately (the context is already done
when Start is reached) and the err-branch of runTest is taken;
otherwise the container's real exit status (the oracle) decides. -/
def runTestSeq (noFastFail : Bool) (oracle : String → Bool) (durOf : String → Nat)
    (testsToRun : List String) (s : RunState) (test : String) : RunState :=
  recordOutcome noFastFail testsToRun s test
    (if s.cancelled then false else oracle test) (durOf test)

/-- The sequential dispatch loop of RunTests (runner.go:563-575 with
NoParallel set): each discovered test is dispatched in discovery order
and runs synchronously. -/
def runSeq (noFastFail : Bool) (oracle : String → Bool) (durOf : String → Nat)
    (testsToRun : List String) : RunState :=
  testsToRun.foldl (runTestSeq noFastFail oracle durOf testsToRun) initState

/-- RunTests (runner.go:544-585, sequential mode): dispatches every
discovered test, prints the summary, and returns its error value.  The
function body ends in `return nil` (runner.go:584) on every path, so
the returned error is `none` unconditionally. -/
def RunTests (noFastFail : Bool) (oracle : String → Bool) (durOf : String → Nat)
    (testsToRun : List String) : RunState × Option String :=
  (runSeq noFastFail oracle durOf testsToRun, none)

/-- One line of the rendered summary (printSummary, runner.go:665-688),
with the wall-clock figures abstracted away. -/
inductive OutLine where
  | blank
  | summaryPass
  | summaryFail
  | passLine (t : String)
  | failLine (t : String)
  | stopLine (t : String)
  deriving DecidableEq, Repr

/-- printSummary (runner.go:665-688): a blank line, then the PASS
header with one PASS line per passed test when failedTests is empty;
otherwise the FAIL header, the PASS lines, and — exactly as the source
branches — all FAIL lines when `!r.config.NoFastFail`, else a FAIL line
for failedTests[0] followed by STOP lines for the incomplete tests. -/
def printSummary (noFastFail : Bool) (s : RunState) : List OutLine :=
  OutLine.blank ::
    (if s.failedTests = [] then
      OutLine.summaryPass :: s.passedTests.map OutLine.passLine
    else
      OutLine.summaryFail ::
        (s.passedTests.map OutLine.passLine ++
          (if !noFastFail then
            s.failedTests.map OutLine.failLine
          else
            OutLine.failLine (s.failedTests.headD "") ::
              s.incompleteTests.map OutLine.stopLine)))

/-- The pre-dispatch INFO line of RunTests (runner.go:552-559). -/
inductive InfoLine where
  | runningOne
  | noTestsToRun
  | runningMany (n : Nat) (sequentially : Bool) (par : Nat)
  deriving DecidableEq, Repr

/-- The switch on len(r.testsToRun) at runner.go:552-559. -/
def runInfoLine (noParallel : Bool) (parallelism : Nat) (testsToRun : List String) : InfoLine :=
  match testsToRun.length with
  | 1 => InfoLine.runningOne
  | 0 => InfoLine.noTestsToRun
  | n => InfoLine.runningMany n noParallel parallelism

/-- Build-constraint expressions as produced by go/build/constraint
(its TagExpr, NotExpr, AndExpr and OrExpr variants). -/
inductive ConstraintExpr where
  | TagExpr (tag : String)
  | NotExpr (x : ConstraintExpr)
  | AndExpr (x y : ConstraintExpr)
  | OrExpr (x y : ConstraintExpr)
  deriving DecidableEq, Repr

/-- Eval of go/build/constraint: evaluate the expression against a tag
membership function. -/
def ConstraintExpr.Eval (f : String → Bool) : ConstraintExpr → Bool
  | .TagExpr t => f t
  | .NotExpr x => !(x.Eval f)
  | .AndExpr x y => x.Eval f && y.Eval f
  | .OrExpr x y => x.Eval f || y.Eval f

/-- One comment of a parsed file, at the boundary to the Go standard
library: `isBuildLine` is the value of
`constraint.IsGoBuild(strings.TrimSpace(c.Text))` and `parsed` the
result of `constraint.Parse` on that text (consulted only when
`isBuildLine` is true).  Both functions live in go/build/constraint,
outside this repository, so their results are data here. -/
structure Comment where
  isBuildLine : Bool
  parsed : Except String ConstraintExpr
  deriving Repr

/-- One comment group of the `go/ast` file, with the position of its
End() token, compared against the position of the `package` clause. -/
structure CommentGroup where
  comments : List Comment
  endPos : Nat
  deriving Repr

/-- A top-level declaration of a parsed file: a function declaration
with its name, or any other declaration. -/
inductive Decl where
  | funcDecl (name : String)
  | otherDecl
  deriving DecidableEq, Repr

/-- The part of a parsed Go file that getTestsToRun reads: the comment
groups (f.Comments, in position order), the position of the package
clause (f.Package), and the top-level declarations (f.Decls). -/
structure SourceFile where
  comments : List CommentGroup
  packagePos : Nat
  decls : List Decl
  deriving Repr

/-- The inner comment-group scan of getTestsToRun (runner.go:494-503):
take the first comment of the group for which IsGoBuild holds, if any,
and return its parse result (the loop breaks after it). -/
def findInGroup : List Comment → Option (Except String ConstraintExpr)
  | [] => none
  | c :: rest => if c.isBuildLine then some c.parsed else findInGroup rest

/-- The outer comment-group loop of getTestsToRun (runner.go:492-509):
scan the groups in order, remembering the last parsed constraint; a
parse failure aborts immediately (runner.go:498-500); after processing
a group whose End() is at or past the package clause the loop breaks
(runner.go:505-508). -/
def findBuildConstraint (pkgPos : Nat) :
    List CommentGroup → Option ConstraintExpr → Except String (Option ConstraintExpr)
  | [], acc => .ok acc
  | g :: rest, acc =>
    match findInGroup g.comments with
    | some (.error e) => .error ("failed to parse build constraint: " ++ e)
    | some (.ok c) =>
      if pkgPos ≤ g.endPos then .ok (some c)
      else findBuildConstraint pkgPos rest (some c)
    | none =>
      if pkgPos ≤ g.endPos then .ok acc
      else findBuildConstraint pkgPos rest acc

/-- Helper for strings.Split of the Go standard library at the
one-rune separator "," used for build tags: walks the runes carrying
the current part in reverse. -/
def splitCommaAux : List Char → List Char → List String
  | [], cur => [String.mk cur.reverse]
  | c :: rest, cur =>
    if c = ',' then String.mk cur.reverse :: splitCommaAux rest []
    else splitCommaAux rest (c :: cur)

/-- strings.Split(s, ",") of the Go standard library: the
comma-separated parts of the string. -/
def goSplitComma (s : String) : List String := splitCommaAux s.data []

/-- Membership in the configured tag set (runner.go:511-520): the
`buildTags` string is split on commas and the map built from the parts
is consulted, so a tag is in the set iff it is one of the parts. -/
def tagMem (buildTags : String) (tag : String) : Bool :=
  (goSplitComma buildTags).contains tag

/-- The declaration loop of getTestsToRun (runner.go:526-534): append
the name of every top-level *ast.FuncDecl whose name has the
"Test" name convention, in declaration order. -/
def testFuncNames (decls : List Decl) : List String :=
  decls.foldl
    (fun acc d =>
      match d with
      | .funcDecl n => if goStartsWith n "Test" then acc ++ [n] else acc
      | .otherDecl => acc) []

/-- The per-file body of the getTestsToRun walk function for a parsed
_test.go file (runner.go:487-534): when a tag set is configured, find
the build constraint; a constraint-parse failure is an error; if a
constraint was found and evaluates to false against the tag set the
file contributes nothing; otherwise (and always when no tag set is
configured) the file contributes its Test-named function declarations. -/
def discoverFile (buildTags : String) (f : SourceFile) : Except String (List String) :=
  if buildTags ≠ "" then
    match findBuildConstraint f.packagePos f.comments none with
    | .error e => .error e
    | .ok none => .ok (testFuncNames f.decls)
    | .ok (some bc) =>
      if bc.Eval (tagMem buildTags) then .ok (testFuncNames f.decls)
      else .ok []
  else .ok (testFuncNames f.decls)

/-- One entry of the deterministic directory walk (filepath.Walk,
runner.go:476): a directory, or a file with its path and — for files
the walk parses — the result of parser.ParseFile. -/
inductive WalkEntry where
  | dir (path : String)
  | file (path : String) (parsed : Except String SourceFile)

/-- The walk of getTestsToRun (runner.go:473-542) over the entry list,
carrying the accumulated test list: directories and files not ending in
_test.go are skipped; a parse failure of a matching file aborts the
whole walk with an error (filepath.Walk stops on the first error
returned by the walk function), as does a constraint-parse failure;
otherwise each file's contribution is appended in walk order. -/
def getTestsToRunAux (buildTags : String) :
    List WalkEntry → List String → Except String (List String)
  | [], acc => .ok acc
  | .dir _ :: rest, acc => getTestsToRunAux buildTags rest acc
  | .file path parsed :: rest, acc =>
    if goEndsWith path "_test.go" then
      match parsed with
      | .error e => .error ("failed to parse " ++ path ++ ": " ++ e)
      | .ok f =>
        match discoverFile buildTags f with
        | .error e => .error e
        | .ok names => getTestsToRunAux buildTags rest (acc ++ names)
    else getTestsToRunAux buildTags rest acc

/-- getTestsToRun (runner.go:473-542): the ordered identifier list, or
the error of the first failing file (in which case no partial list is
returned — the Go function returns `nil, err`). -/
def getTestsToRun (buildTags : String) (entries : List WalkEntry) : Except String (List String) :=
  getTestsToRunAux buildTags entries []

/-- Character class [a-zA-Z0-9_.-] of the sanitizer's replacement
regexp (runner.go:692). -/
def isAllowedChar (c : Char) : Bool :=
  ('a' ≤ c && c ≤ 'z') || ('A' ≤ c && c ≤ 'Z') || ('0' ≤ c && c ≤ '9') ||
    c == '_' || c == '.' || c == '-'

/-- Character class [a-zA-Z0-9] of the leading-character check
(runner.go:694). -/
def isAlnumChar (c : Char) : Bool :=
  ('a' ≤ c && c ≤ 'z') || ('A' ≤ c && c ≤ 'Z') || ('0' ≤ c && c ≤ '9')

/-- One lowercase hexadecimal digit, as printed by the %x verb. -/
def hexDigit (n : Nat) : Char :=
  if n < 10 then Char.ofNat ('0'.toNat + n) else Char.ofNat ('a'.toNat + (n - 10))

/-- The four hex digits printed by `fmt.Sprintf("%04x", n)` for
n < 65536 (runner.go:700). -/
def hex4 (n : Nat) : List Char :=
  [hexDigit (n / 4096 % 16), hexDigit (n / 256 % 16), hexDigit (n / 16 % 16), hexDigit (n % 16)]

/-- The conditional prepend of runner.go:694-696: when the replaced
name does not start with an alphanumeric rune (which includes the empty
name, unmatched by the anchored regexp), put the literal "e2e-" in
front. -/
def prependIfNotAlnum (name : List Char) : List Char :=
  match name with
  | [] => 'e' :: '2' :: 'e' :: '-' :: name
  | c :: _ => if isAlnumChar c then name else 'e' :: '2' :: 'e' :: '-' :: name

/-- The truncation `if len(name) > 20: name = name[:20]` of
runner.go:697-699; every character is single-byte at this point, so the
Go byte slice is the character prefix. -/
def truncate20 (name : List Char) : List Char :=
  if name.length > 20 then name.take 20 else name

/-- sanitizeContainerName (runner.go:691-702) over the rune sequence of
the test name: replace every rune outside [a-zA-Z0-9_.-] with '-';
prepend the literal "e2e-" when the result does not start with an
alphanumeric rune; truncate to at most 20 characters; finally render
"e2e-" ++ name ++ "-" ++ the four random hex digits. -/
def sanitizeContainerName (testName : List Char) (randVal : Nat) : List Char :=
  'e' :: '2' :: 'e' :: '-' ::
    truncate20 (prependIfNotAlnum
      (testName.map (fun c => if isAllowedChar c then c else '-'))) ++
    '-' :: hex4 randVal

/-- The anchored container-name pattern of the specification,
matching a string against it from the spec's words: a first character
in [A-Za-z0-9] followed by characters in [A-Za-z0-9_.-]. -/
def matchesNamePattern : List Char → Bool
  | [] => false
  | c :: rest => isAlnumChar c && rest.all isAllowedChar

/-- PoolState embeds the parallel dispatch structure of RunTests
(runner.go:561-579): `pending` loop iterations that have not yet
spawned their goroutine, `waiting` goroutines blocked in the semaphore
send `sem <- struct`, `running` goroutines holding a slot of the
buffered channel while executing runTest, and `finished` goroutines
that have released their slot. -/
structure PoolState where
  pending : Nat
  waiting : Nat
  running : Nat
  finished : Nat
  deriving DecidableEq, Repr

/-- One scheduler step of the RunTests worker pool.  The semaphore is
`make(chan struct, N)` (runner.go:561): a send succeeds only while
fewer than N slots are held, so `acquire` is guarded by running < N;
`finish` is the deferred receive `<-sem` releasing the slot when
runTest returns. -/
inductive PoolStep (N : Nat) : PoolState → PoolState → Prop
  | spawn (p w r f : Nat) :
      PoolStep N ⟨p + 1, w, r, f⟩ ⟨p, w + 1, r, f⟩
  | acquire (p w r f : Nat) (h : r < N) :
      PoolStep N ⟨p, w + 1, r, f⟩ ⟨p, w, r + 1, f⟩
  | finish (p w r f : Nat) :
      PoolStep N ⟨p, w, r + 1, f⟩ ⟨p, w, r, f + 1⟩

/-- States reachable by the pool from the start of the dispatch loop
over k discovered tests. -/
inductive PoolReachable (N k : Nat) : PoolState → Prop
  | init : PoolReachable N k ⟨k, 0, 0, 0⟩
  | step {s s' : PoolState} : PoolReachable N k s → PoolStep N s s' → PoolReachable N k s'

/-- The passed list after one recordOutcome: extended by the test on
success, untouched on failure. -/
lemma recordOutcome_passedTests (nf : Bool) (tests : List String) (s : RunState)
    (t : String) (ok : Bool) (d : Nat) :
    (recordOutcome nf tests s t ok d).passedTests =
      if ok then s.passedTests ++ [t] else s.passedTests := by
  unfold recordOutcome
  cases ok <;> simp <;> split <;> (try split) <;> rfl

/-- The failed list after one recordOutcome: extended by the test on
failure, untouched on success. -/
lemma recordOutcome_failedTests (nf : Bool) (tests : List String) (s : RunState)
    (t : String) (ok : Bool) (d : Nat) :
    (recordOutcome nf tests s t ok d).failedTests =
      if ok then s.failedTests else s.failedTests ++ [t] := by
  unfold recordOutcome
  cases ok <;> simp <;> split <;> (try split) <;> rfl

/-- With fail-fast disabled the incomplete list is never touched by an
outcome. -/
lemma recordOutcome_incomplete_noFastFail (tests : List String) (s : RunState)
    (t : String) (ok : Bool) (d : Nat) :
    (recordOutcome true tests s t ok d).incompleteTests = s.incompleteTests := by
  unfold recordOutcome
  cases ok <;> simp <;> split <;> rfl

/-- With fail-fast disabled `cancel()` is never called by an outcome. -/
lemma recordOutcome_cancelled_noFastFail (tests : List String) (s : RunState)
    (t : String) (ok : Bool) (d : Nat) :
    (recordOutcome true tests s t ok d).cancelled = s.cancelled := by
  unfold recordOutcome
  cases ok <;> simp <;> split <;> rfl

/-- Keys of the timing map after a Go map assignment. -/
lemma mem_mapKeys_mapUpdate (m : List (String × Nat)) (k : String) (v : Nat) (x : String) :
    x ∈ mapKeys (mapUpdate m k v) ↔ x ∈ mapKeys m ∨ x = k := by
  unfold mapUpdate mapKeys
  split
  · next hk =>
    constructor
    · intro hx
      rw [List.map_map] at hx
      rcases List.mem_map.1 hx with ⟨q, hq, hfst⟩
      by_cases hq1 : q.1 = k
      · right
        simpa [hq1] using hfst.symm
      · left
        refine List.mem_map.2 ⟨q, hq, ?_⟩
        simpa [hq1] using hfst
    · intro hx
      rw [List.map_map]
      rcases hx with hx | rfl
      · rcases List.mem_map.1 hx with ⟨q, hq, rfl⟩
        refine List.mem_map.2 ⟨q, hq, ?_⟩
        by_cases hq1 : q.1 = k <;> simp [hq1]
      · rcases List.mem_map.1 hk with ⟨q, hq, hfst⟩
        refine List.mem_map.2 ⟨q, hq, ?_⟩
        simp [hfst]
  · simp

/-- Keys of the timing map after one recordOutcome: the prior keys plus
the recorded test. -/
lemma mem_mapKeys_recordOutcome (nf : Bool) (tests : List String) (s : RunState)
    (t : String) (ok : Bool) (d : Nat) (x : String) :
    x ∈ mapKeys (recordOutcome nf tests s t ok d).testTimings ↔
      x ∈ mapKeys s.testTimings ∨ x = t := by
  unfold recordOutcome
  cases ok <;> simp <;> (try split) <;> (try split) <;> simp [mem_mapKeys_mapUpdate]

/-- The timing keys track the passed and failed lists. -/
def timingsMatch (s : RunState) : Prop :=
  ∀ x, x ∈ mapKeys s.testTimings ↔ x ∈ s.passedTests ∨ x ∈ s.failedTests

/-- One recordOutcome preserves the timing-key invariant. -/
lemma timingsMatch_recordOutcome (nf : Bool) (tests : List String) (s : RunState)
    (t : String) (ok : Bool) (d : Nat) (h : timingsMatch s) :
    timingsMatch (recordOutcome nf tests s t ok d) := by
  intro x
  rw [mem_mapKeys_recordOutcome, recordOutcome_passedTests, recordOutcome_failedTests, h x]
  cases ok <;> simp <;> tauto

/-- The timing-key invariant holds after folding any event sequence. -/
lemma timingsMatch_foldl (nf : Bool) (tests : List String) (events : List Outcome)
    (s : RunState) (h : timingsMatch s) :
    timingsMatch
      (events.foldl (fun s e => recordOutcome nf tests s e.test e.ok e.dur) s) := by
  induction events generalizing s with
  | nil => exact h
  | cons e rest ih => exact ih _ (timingsMatch_recordOutcome nf tests s e.test e.ok e.dur h)

/-- Folding events with fail-fast disabled never touches the incomplete
list. -/
lemma foldl_incomplete_noFastFail (tests : List String) (events : List Outcome)
    (s : RunState) :
    (events.foldl (fun s e => recordOutcome true tests s e.test e.ok e.dur) s).incompleteTests
      = s.incompleteTests := by
  induction events generalizing s with
  | nil => rfl
  | cons e rest ih => rw [List.foldl_cons, ih, recordOutcome_incomplete_noFastFail]

/-- Folding events with fail-fast disabled never cancels the context. -/
lemma foldl_cancelled_noFastFail (tests : List String) (events : List Outcome)
    (s : RunState) :
    (events.foldl (fun s e => recordOutcome true tests s e.test e.ok e.dur) s).cancelled
      = s.cancelled := by
  induction events generalizing s with
  | nil => rfl
  | cons e rest ih => rw [List.foldl_cons, ih, recordOutcome_cancelled_noFastFail]

/-- The failed list after folding an event sequence: the prior failures
followed by the identifiers of the events that completed
unsuccessfully, in completion order. -/
lemma foldl_failedTests_eq (nf : Bool) (tests : List String) (events : List Outcome)
    (s : RunState) :
    (events.foldl (fun s e => recordOutcome nf tests s e.test e.ok e.dur) s).failedTests =
      s.failedTests ++ (events.filter (fun e => !e.ok)).map Outcome.test := by
  induction events generalizing s with
  | nil => simp
  | cons e rest ih =>
    rw [List.foldl_cons, ih, recordOutcome_failedTests]
    cases he : e.ok <;> simp [he]

/-- C10: at the end of every run — whatever completion order the
Execution Units finish in — the duration map of the final RunState has
an entry for exactly those identifiers that appear in the passed or
failed lists, so identifiers present only in the incomplete list have
no recorded duration; each entry is written by the same atomic
recordOutcome step (the single mu.Lock/mu.Unlock window of runTest,
runner.go:644-662) as the corresponding list append. -/
theorem run_timings_exactly_passed_or_failed (nf : Bool) (tests : List String)
    (events : List Outcome) (t : String) :
    t ∈ mapKeys (runEvents nf tests events).testTimings ↔
      t ∈ (runEvents nf tests events).passedTests ∨
        t ∈ (runEvents nf tests events).failedTests := by
  have h0 : timingsMatch initState := by intro x; simp [initState, mapKeys]
  exact timingsMatch_foldl nf tests events initState h0 t

/-- C1: RunTests (runner.go:544-585) ends in `return nil` on every
path, so it reports success to its caller even for the run of the
repository's simple-failing example, where TestExample2 fails and the
final failed list is non-empty.  The repository's own test
TestSuiteRunner_SimpleFailing demands an error containing "tests
failed" from this entry point. -/
theorem runTests_error_always_nil :
    (∀ (nf : Bool) (oracle : String → Bool) (durOf : String → Nat) (tests : List String),
      (RunTests nf oracle durOf tests).2 = none) ∧
    ((RunTests false (fun t => !(t == "TestExample2")) (fun _ => 1)
        ["TestExample1", "TestExample2"]).1.failedTests = ["TestExample2"] ∧
      (RunTests false (fun t => !(t == "TestExample2")) (fun _ => 1)
        ["TestExample1", "TestExample2"]).2 = none) := by
  refine ⟨fun nf oracle durOf tests => rfl, ?_, rfl⟩
  decide

/-- C3: with fail-fast disabled (NoFastFail) and the two discovered
tests TestA and TestB both failing, the final RunState's failed list
does contain both failing identifiers and the incomplete list is empty
— but printSummary branches on `!NoFastFail` the wrong way round
(runner.go:677-686), so the rendered summary prints a FAIL line only
for failedTests[0] (followed by STOP lines for the provably empty
incomplete list) and omits TestB. -/
theorem summary_noFastFail_prints_first_failure_only :
    (runEvents true ["TestA", "TestB"]
        [⟨"TestA", false, 1⟩, ⟨"TestB", false, 2⟩]).failedTests = ["TestA", "TestB"] ∧
    (runEvents true ["TestA", "TestB"]
        [⟨"TestA", false, 1⟩, ⟨"TestB", false, 2⟩]).incompleteTests = [] ∧
    printSummary true (runEvents true ["TestA", "TestB"]
        [⟨"TestA", false, 1⟩, ⟨"TestB", false, 2⟩]) =
      [OutLine.blank, OutLine.summaryFail, OutLine.failLine "TestA"] ∧
    OutLine.failLine "TestB" ∉
      printSummary true (runEvents true ["TestA", "TestB"]
        [⟨"TestA", false, 1⟩, ⟨"TestB", false, 2⟩]) := by
  refine ⟨by decide, by decide, by decide, by decide⟩

/-- C2 counterexample: a sequential fail-fast run over the discovered
tests TestA and TestB in which TestA fails.  When TestA's failure is
recorded, the run cancels the context and records TestB as incomplete;
but the loop of RunTests still dispatches TestB, whose docker run fails
at once under the cancelled context, so runTest appends TestB to the
failed list as well.  The final state has TestB in both the failed and
the incomplete lists and a failed list that is not just the single
first-observed failing identifier. -/
theorem failFast_run_double_counts_cancelled :
    (runSeq false (fun t => t == "TestB") (fun _ => 1) ["TestA", "TestB"]).failedTests =
        ["TestA", "TestB"] ∧
    (runSeq false (fun t => t == "TestB") (fun _ => 1) ["TestA", "TestB"]).incompleteTests =
        ["TestB"] ∧
    (runSeq false (fun t => t == "TestB") (fun _ => 1) ["TestA", "TestB"]).passedTests = [] ∧
    "TestB" ∈ (runSeq false (fun t => t == "TestB") (fun _ => 1) ["TestA", "TestB"]).failedTests ∧
    "TestB" ∈
      (runSeq false (fun t => t == "TestB") (fun _ => 1) ["TestA", "TestB"]).incompleteTests ∧
    (runSeq false (fun t => t == "TestB") (fun _ => 1) ["TestA", "TestB"]).failedTests ≠
        ["TestA"] := by
  refine ⟨by decide, by decide, by decide, by decide, by decide, by decide⟩

/-- C2 (amended): under live fail-fast, at the moment the first failing
outcome is recorded (failedTests still empty, no incompletes yet), the
resulting state is a partition of the discovered set: the failed list
is exactly the one first-observed failing identifier, and passed ++
failed ++ incomplete is a permutation of the discovered list, so every
discovered identifier lands in exactly one of the three lists.  (Units
dispatched or cut off after the cancellation are subsequently appended
to the failed list as further failures, which is what breaks the
partition at the very end of the run.) -/
theorem failFast_first_failure_partition (tests : List String) (s : RunState)
    (t : String) (d : Nat)
    (hnodupT : tests.Nodup)
    (hids : ∀ x ∈ tests, goTrimSpace x = x ∧ x ≠ "")
    (hfail : s.failedTests = [])
    (hsub : ∀ x ∈ s.passedTests, x ∈ tests)
    (hnodupP : s.passedTests.Nodup)
    (hinc : s.incompleteTests = [])
    (ht : t ∈ tests) (htp : t ∉ s.passedTests) :
    (recordOutcome false tests s t false d).failedTests = [t] ∧
    ((recordOutcome false tests s t false d).passedTests ++
        (recordOutcome false tests s t false d).failedTests ++
        (recordOutcome false tests s t false d).incompleteTests).Perm tests := by
  have hfailed : (recordOutcome false tests s t false d).failedTests = [t] := by
    rw [recordOutcome_failedTests]
    simp [hfail]
  have hpassed : (recordOutcome false tests s t false d).passedTests = s.passedTests := by
    rw [recordOutcome_passedTests]
    simp
  have hinc2 : (recordOutcome false tests s t false d).incompleteTests =
      incompleteOf tests s.passedTests s.failedTests t := by
    unfold recordOutcome
    simp [hfail, hinc]
  have hmap : tests.map goTrimSpace = tests := by
    rw [List.map_congr_left (fun x hx => (hids x hx).1)]
    exact List.map_id tests
  have hmem_inc : ∀ x, x ∈ incompleteOf tests s.passedTests s.failedTests t ↔
      x ∈ tests ∧ x ≠ t ∧ x ∉ s.passedTests := by
    intro x
    unfold incompleteOf
    rw [hmap, hfail]
    simp only [List.mem_filter, decide_eq_true_eq, List.not_mem_nil, or_false,
      not_or]
    constructor
    · rintro ⟨hx, ⟨-, hxt⟩, hxp⟩
      exact ⟨hx, hxt, hxp⟩
    · rintro ⟨hx, hxt, hxp⟩
      exact ⟨hx, ⟨(hids x hx).2, hxt⟩, hxp⟩
  refine ⟨hfailed, ?_⟩
  rw [hfailed, hpassed, hinc2]
  have hnodupI : (incompleteOf tests s.passedTests s.failedTests t).Nodup := by
    unfold incompleteOf
    rw [hmap]
    exact hnodupT.filter _
  have hdisj1 : s.passedTests.Disjoint [t] := by
    intro a ha hat
    rw [List.mem_singleton] at hat
    exact htp (hat ▸ ha)
  have hdisj2 : (s.passedTests ++ [t]).Disjoint
      (incompleteOf tests s.passedTests s.failedTests t) := by
    intro a ha hai
    rcases (hmem_inc a).1 hai with ⟨-, hat, hap⟩
    rcases List.mem_append.1 ha with h | h
    · exact hap h
    · exact hat (List.mem_singleton.1 h)
  have hnodupL : ((s.passedTests ++ [t]) ++
      incompleteOf tests s.passedTests s.failedTests t).Nodup := by
    refine List.Nodup.append ?_ hnodupI hdisj2
    exact List.Nodup.append hnodupP (List.nodup_singleton t) hdisj1
  rw [List.perm_ext_iff_of_nodup hnodupL hnodupT]
  intro a
  simp only [List.mem_append, List.mem_singleton, hmem_inc a]
  constructor
  · rintro ((h | rfl) | ⟨h, -, -⟩)
    · exact hsub a h
    · exact ht
    · exact h
  · intro h
    by_cases hap : a ∈ s.passedTests
    · exact Or.inl (Or.inl hap)
    · by_cases hat : a = t
      · exact Or.inl (Or.inr hat)
      · exact Or.inr ⟨h, hat, hap⟩

/-- Witness for the amended C2 theorem: a concrete partition at the
first failure of a three-test run whose TestB has already passed. -/
theorem failFast_first_failure_partition_witness :
    (recordOutcome false ["TestA", "TestB", "TestC"]
        ⟨[], ["TestB"], [], [("TestB", 3)], false⟩ "TestA" false 7).failedTests = ["TestA"] ∧
    ((recordOutcome false ["TestA", "TestB", "TestC"]
        ⟨[], ["TestB"], [], [("TestB", 3)], false⟩ "TestA" false 7).passedTests ++
      (recordOutcome false ["TestA", "TestB", "TestC"]
        ⟨[], ["TestB"], [], [("TestB", 3)], false⟩ "TestA" false 7).failedTests ++
      (recordOutcome false ["TestA", "TestB", "TestC"]
        ⟨[], ["TestB"], [], [("TestB", 3)], false⟩ "TestA" false 7).incompleteTests).Perm
      ["TestA", "TestB", "TestC"] :=
  failFast_first_failure_partition ["TestA", "TestB", "TestC"]
    ⟨[], ["TestB"], [], [("TestB", 3)], false⟩ "TestA" 7
    (by decide) (by decide) rfl (by decide) (by decide) rfl (by decide) (by decide)

/-- The specification's description of one declaration's contribution
to discovery: the name of a top-level function declaration beginning
with "Test", and nothing for any other declaration. -/
def testNameOf : Decl → Option String
  | .funcDecl n => if goStartsWith n "Test" then some n else none
  | .otherDecl => none

/-- The append loop of testFuncNames collects exactly the Test-named
function declarations, in declaration order, behind any accumulator. -/
lemma testFuncNames_foldl (decls : List Decl) (acc : List String) :
    decls.foldl
      (fun acc d =>
        match d with
        | .funcDecl n => if goStartsWith n "Test" then acc ++ [n] else acc
        | .otherDecl => acc) acc = acc ++ decls.filterMap testNameOf := by
  induction decls generalizing acc with
  | nil => simp
  | cons d rest ih =>
    cases d with
    | funcDecl n =>
      by_cases hn : goStartsWith n "Test" <;>
        simp [testNameOf, hn, ih, List.append_assoc]
    | otherDecl => simp [testNameOf, ih]

/-- The declaration loop equals the declarative filterMap form. -/
lemma testFuncNames_eq (decls : List Decl) :
    testFuncNames decls = decls.filterMap testNameOf := by
  unfold testFuncNames
  simpa using testFuncNames_foldl decls []

/-- The specification's description of one walk entry's contribution
to discovery when no tag set is configured: for a file matching the
*_test.go naming convention, the names of its Test-named top-level
function declarations in file order; nothing for directories or other
files. -/
def entryTestNames : WalkEntry → List String
  | .dir _ => []
  | .file path parsed =>
    if goEndsWith path "_test.go" then
      match parsed with
      | .ok f => f.decls.filterMap testNameOf
      | .error _ => []
    else []

/-- A successful untagged walk returns the accumulator followed by the
per-entry contributions in walk order. -/
lemma getTestsToRunAux_ok_eq (entries : List WalkEntry) (acc l : List String)
    (h : getTestsToRunAux "" entries acc = .ok l) :
    l = acc ++ (entries.map entryTestNames).join := by
  induction entries generalizing acc with
  | nil =>
    simp only [getTestsToRunAux, Except.ok.injEq] at h
    simp [h]
  | cons en rest ih =>
    cases en with
    | dir p =>
      simp only [getTestsToRunAux] at h
      simpa [entryTestNames] using ih acc h
    | file p parsed =>
      simp only [getTestsToRunAux] at h
      by_cases hp : goEndsWith p "_test.go"
      · rw [if_pos hp] at h
        cases parsed with
        | error e => exact absurd h (by simp)
        | ok f =>
          have hd : discoverFile "" f = .ok (testFuncNames f.decls) := by
            unfold discoverFile
            simp
          simp only [hd] at h
          rw [ih _ h]
          simp [entryTestNames, hp, testFuncNames_eq, List.append_assoc]
      · rw [if_neg hp] at h
        rw [ih _ h]
        simp [entryTestNames, hp]

/-- C5: for every successful untagged discovery pass, the result list
is exactly the walk-order concatenation of per-file contributions,
where a *_test.go file contributes the name of each of its top-level
function declarations beginning with "Test" — and only those — in
declaration order, and every other entry contributes nothing. -/
theorem discovery_collects_test_functions (entries : List WalkEntry) (l : List String)
    (h : getTestsToRun "" entries = .ok l) :
    l = (entries.map entryTestNames).join := by
  simpa using getTestsToRunAux_ok_eq entries [] l h

/-- Witness for C5: a walk with a directory, a test file with mixed
declarations, a non-test file, and a second test file. -/
theorem discovery_collects_test_functions_witness :
    ["TestA", "TestB", "TestD"] =
      (([WalkEntry.dir "sub",
        WalkEntry.file "sub/a_test.go"
          (Except.ok ⟨[], 1, [Decl.funcDecl "TestA", Decl.otherDecl,
            Decl.funcDecl "helper", Decl.funcDecl "TestB"]⟩),
        WalkEntry.file "sub/b.go" (Except.ok ⟨[], 1, [Decl.funcDecl "TestC"]⟩),
        WalkEntry.file "c_test.go"
          (Except.ok ⟨[], 1, [Decl.funcDecl "TestD"]⟩)]).map entryTestNames).join :=
  discovery_collects_test_functions _ _ rfl

/-- C4: when a build-tag set is configured and the comment scan of a
test file finds a TagExpression that evaluates to false under
set-membership in the configured tags, the file contributes no test
identifiers; and a file in which the scan finds no TagExpression
always contributes its Test-named declarations, whether or not a tag
set is configured. -/
theorem tag_filtering_contract :
    (∀ (tags : String) (f : SourceFile) (e : ConstraintExpr),
      tags ≠ "" →
      findBuildConstraint f.packagePos f.comments none = .ok (some e) →
      e.Eval (tagMem tags) = false →
      discoverFile tags f = .ok []) ∧
    (∀ (tags : String) (f : SourceFile),
      findBuildConstraint f.packagePos f.comments none = .ok none →
      discoverFile tags f = .ok (testFuncNames f.decls)) := by
  constructor
  · intro tags f e htags hfind heval
    unfold discoverFile
    rw [if_pos htags, hfind]
    simp [heval]
  · intro tags f hfind
    unfold discoverFile
    by_cases htags : tags ≠ ""
    · rw [if_pos htags, hfind]
    · rw [if_neg htags]

/-- Witness for C4: a file whose leading go:build comment names a tag
outside the configured set contributes nothing; a file without any
build comment contributes its single test. -/
theorem tag_filtering_contract_witness :
    discoverFile "e2e"
        ⟨[⟨[⟨true, Except.ok (ConstraintExpr.TagExpr "foo")⟩], 5⟩], 10,
          [Decl.funcDecl "TestX"]⟩ = Except.ok [] ∧
    discoverFile "e2e" ⟨[], 10, [Decl.funcDecl "TestX"]⟩ = Except.ok ["TestX"] := by
  constructor
  · exact tag_filtering_contract.1 "e2e" _ (ConstraintExpr.TagExpr "foo")
      (by decide) rfl (by decide)
  · have h := tag_filtering_contract.2 "e2e" ⟨[], 10, [Decl.funcDecl "TestX"]⟩ rfl
    rw [h]
    rfl

/-- A walk entry that is a matching test-source file whose
parser.ParseFile call failed. -/
def entryParseFails : WalkEntry → Prop
  | .dir _ => False
  | .file p parsed =>
    goEndsWith p "_test.go" = true ∧ ∃ e, parsed = Except.error e

/-- A walk entry that is a matching, parsed test-source file whose
found build-constraint expression failed to parse. -/
def entryConstraintFails : WalkEntry → Prop
  | .dir _ => False
  | .file p parsed =>
    goEndsWith p "_test.go" = true ∧
      ∃ f m, parsed = Except.ok f ∧
        findBuildConstraint f.packagePos f.comments none = Except.error m

/-- A walk entry on which discovery cannot fail: a directory, a
non-matching file, or a matching file that parses and whose per-file
discovery succeeds. -/
def entryDiscoveryOk (tags : String) : WalkEntry → Prop
  | .dir _ => True
  | .file p parsed =>
    goEndsWith p "_test.go" = true →
      ∃ f names, parsed = Except.ok f ∧ discoverFile tags f = Except.ok names

/-- A walk entry contributing no identifiers: a directory, a
non-matching file, or a matching file that parses to no findable
tests. -/
def entryNoTests (tags : String) : WalkEntry → Prop
  | .dir _ => True
  | .file p parsed =>
    goEndsWith p "_test.go" = true →
      ∃ f, parsed = Except.ok f ∧ discoverFile tags f = Except.ok []

/-- Whether a walk entry is a file matching the test-source naming
convention. -/
def entryIsTestFile : WalkEntry → Bool
  | .dir _ => false
  | .file p _ => goEndsWith p "_test.go"

/-- A parse failure among the entries aborts the whole walk. -/
lemma getTestsToRunAux_error_of_parseFail (tags : String) (entries : List WalkEntry)
    (acc : List String) (h : ∃ en ∈ entries, entryParseFails en) :
    ∃ msg, getTestsToRunAux tags entries acc = .error msg := by
  induction entries generalizing acc with
  | nil => simp at h
  | cons en rest ih =>
    rcases h with ⟨w, hw, hwf⟩
    rcases List.mem_cons.1 hw with rfl | hwrest
    · cases w with
      | dir p => exact absurd hwf (by simp [entryParseFails])
      | file p parsed =>
        rcases hwf with ⟨hp, e, rfl⟩
        refine ⟨"failed to parse " ++ p ++ ": " ++ e, ?_⟩
        simp only [getTestsToRunAux, if_pos hp]
    · cases en with
      | dir p => simpa only [getTestsToRunAux] using ih acc ⟨w, hwrest, hwf⟩
      | file p parsed =>
        by_cases hp : goEndsWith p "_test.go"
        · cases parsed with
          | error e =>
            exact ⟨"failed to parse " ++ p ++ ": " ++ e, by
              simp only [getTestsToRunAux, if_pos hp]⟩
          | ok f =>
            cases hd : discoverFile tags f with
            | error m =>
              exact ⟨m, by simp only [getTestsToRunAux, if_pos hp, hd]⟩
            | ok names =>
              have := ih (acc ++ names) ⟨w, hwrest, hwf⟩
              simpa only [getTestsToRunAux, if_pos hp, hd] using this
        · have := ih acc ⟨w, hwrest, hwf⟩
          simpa only [getTestsToRunAux, if_neg hp] using this

/-- With a tag set configured, a constraint-parse failure among the
entries aborts the whole walk. -/
lemma getTestsToRunAux_error_of_constraintFail (tags : String) (entries : List WalkEntry)
    (acc : List String) (htags : tags ≠ "")
    (h : ∃ en ∈ entries, entryConstraintFails en) :
    ∃ msg, getTestsToRunAux tags entries acc = .error msg := by
  induction entries generalizing acc with
  | nil => simp at h
  | cons en rest ih =>
    rcases h with ⟨w, hw, hwf⟩
    rcases List.mem_cons.1 hw with rfl | hwrest
    · cases w with
      | dir p => exact absurd hwf (by simp [entryConstraintFails])
      | file p parsed =>
        rcases hwf with ⟨hp, f, m, rfl, hfind⟩
        have hd : discoverFile tags f = .error m := by
          unfold discoverFile
          rw [if_pos htags, hfind]
        exact ⟨m, by simp only [getTestsToRunAux, if_pos hp, hd]⟩
    · cases en with
      | dir p => simpa only [getTestsToRunAux] using ih acc ⟨w, hwrest, hwf⟩
      | file p parsed =>
        by_cases hp : goEndsWith p "_test.go"
        · cases parsed with
          | error e =>
            exact ⟨"failed to parse " ++ p ++ ": " ++ e, by
              simp only [getTestsToRunAux, if_pos hp]⟩
          | ok f =>
            cases hd : discoverFile tags f with
            | error m =>
              exact ⟨m, by simp only [getTestsToRunAux, if_pos hp, hd]⟩
            | ok names =>
              have := ih (acc ++ names) ⟨w, hwrest, hwf⟩
              simpa only [getTestsToRunAux, if_pos hp, hd] using this
        · have := ih acc ⟨w, hwrest, hwf⟩
          simpa only [getTestsToRunAux, if_neg hp] using this

/-- When every entry admits per-file discovery, the walk succeeds. -/
lemma getTestsToRunAux_ok_of (tags : String) (entries : List WalkEntry)
    (acc : List String) (h : ∀ en ∈ entries, entryDiscoveryOk tags en) :
    ∃ l, getTestsToRunAux tags entries acc = .ok l := by
  induction entries generalizing acc with
  | nil => exact ⟨acc, rfl⟩
  | cons en rest ih =>
    have hrest : ∀ en ∈ rest, entryDiscoveryOk tags en :=
      fun x hx => h x (List.mem_cons_of_mem en hx)
    cases en with
    | dir p =>
      simpa only [getTestsToRunAux] using ih acc hrest
    | file p parsed =>
      by_cases hp : goEndsWith p "_test.go"
      · rcases h _ (List.mem_cons_self _ _) hp with ⟨f, names, rfl, hd⟩
        have := ih (acc ++ names) hrest
        simpa only [getTestsToRunAux, if_pos hp, hd] using this
      · simpa only [getTestsToRunAux, if_neg hp] using ih acc hrest

/-- When no entry contributes any identifier, the walk returns the
accumulator unchanged. -/
lemma getTestsToRunAux_acc_of_noTests (tags : String) (entries : List WalkEntry)
    (acc : List String) (h : ∀ en ∈ entries, entryNoTests tags en) :
    getTestsToRunAux tags entries acc = .ok acc := by
  induction entries generalizing acc with
  | nil => rfl
  | cons en rest ih =>
    have hrest : ∀ en ∈ rest, entryNoTests tags en :=
      fun x hx => h x (List.mem_cons_of_mem en hx)
    cases en with
    | dir p =>
      simpa only [getTestsToRunAux] using ih acc hrest
    | file p parsed =>
      by_cases hp : goEndsWith p "_test.go"
      · rcases h _ (List.mem_cons_self _ _) hp with ⟨f, rfl, hd⟩
        have := ih acc hrest
        simpa only [getTestsToRunAux, if_pos hp, hd, List.append_nil] using this
      · simpa only [getTestsToRunAux, if_neg hp] using ih acc hrest

/-- C6: discovery fails as a whole — returning an error and no partial
identifier list — whenever a matching test-source file fails to parse,
or (with a tag set configured) a found build-constraint expression
fails to parse; it succeeds whenever no per-file failure occurs; and a
walk with no matching files, or whose matching files contribute no
declarations, yields the empty, non-error result. -/
theorem discovery_error_contract :
    (∀ (tags : String) (entries : List WalkEntry),
      (∃ en ∈ entries, entryParseFails en) →
      ∃ msg, getTestsToRun tags entries = .error msg) ∧
    (∀ (tags : String) (entries : List WalkEntry), tags ≠ "" →
      (∃ en ∈ entries, entryConstraintFails en) →
      ∃ msg, getTestsToRun tags entries = .error msg) ∧
    (∀ (tags : String) (entries : List WalkEntry),
      (∀ en ∈ entries, entryDiscoveryOk tags en) →
      ∃ l, getTestsToRun tags entries = .ok l) ∧
    (∀ (tags : String) (entries : List WalkEntry),
      (∀ en ∈ entries, entryIsTestFile en = false) →
      getTestsToRun tags entries = .ok []) ∧
    (∀ (tags : String) (entries : List WalkEntry),
      (∀ en ∈ entries, entryNoTests tags en) →
      getTestsToRun tags entries = .ok []) := by
  refine ⟨?_, ?_, ?_, ?_, ?_⟩
  · intro tags entries h
    exact getTestsToRunAux_error_of_parseFail tags entries [] h
  · intro tags entries htags h
    exact getTestsToRunAux_error_of_constraintFail tags entries [] htags h
  · intro tags entries h
    exact getTestsToRunAux_ok_of tags entries [] h
  · intro tags entries h
    refine getTestsToRunAux_acc_of_noTests tags entries [] ?_
    intro en hen
    cases en with
    | dir p => trivial
    | file p parsed =>
      intro hp
      exact absurd (h _ hen) (by simp [entryIsTestFile, hp])
  · intro tags entries h
    exact getTestsToRunAux_acc_of_noTests tags entries [] h

/-- Witness for C6: a parse failure aborts discovery; a failing
build-constraint parse aborts discovery; a clean walk succeeds; a walk
with no matching files yields the empty result; and a matching file
with no Test declarations yields the empty result. -/
theorem discovery_error_contract_witness :
    (∃ msg, getTestsToRun ""
        [WalkEntry.file "bad_test.go" (Except.error "syntax")] = .error msg) ∧
    (∃ msg, getTestsToRun "e2e"
        [WalkEntry.file "tagged_test.go"
          (Except.ok ⟨[⟨[⟨true, Except.error "invalid"⟩], 5⟩], 10,
            [Decl.funcDecl "TestX"]⟩)] = .error msg) ∧
    (∃ l, getTestsToRun ""
        [WalkEntry.dir "sub",
         WalkEntry.file "ok_test.go" (Except.ok ⟨[], 1, [Decl.funcDecl "TestY"]⟩)] = .ok l) ∧
    (getTestsToRun "" [WalkEntry.dir "sub",
        WalkEntry.file "main.go" (Except.error "unread")] = .ok []) ∧
    (getTestsToRun "" [WalkEntry.file "empty_test.go"
        (Except.ok ⟨[], 1, [Decl.otherDecl, Decl.funcDecl "helper"]⟩)] = .ok []) := by
  refine ⟨?_, ?_, ?_, ?_, ?_⟩
  · exact discovery_error_contract.1 "" _
      ⟨WalkEntry.file "bad_test.go" (Except.error "syntax"), by simp,
        by exact ⟨by decide, "syntax", rfl⟩⟩
  · refine discovery_error_contract.2.1 "e2e" _ (by decide)
      ⟨WalkEntry.file "tagged_test.go"
          (Except.ok ⟨[⟨[⟨true, Except.error "invalid"⟩], 5⟩], 10, [Decl.funcDecl "TestX"]⟩),
        by simp, ?_⟩
    exact ⟨by decide,
      ⟨[⟨[⟨true, Except.error "invalid"⟩], 5⟩], 10, [Decl.funcDecl "TestX"]⟩,
      "failed to parse build constraint: invalid", rfl, rfl⟩
  · exact discovery_error_contract.2.2.1 "" _ (by
      intro en hen
      rcases List.mem_cons.1 hen with rfl | hen2
      · trivial
      · rcases List.mem_cons.1 hen2 with rfl | hen3
        · exact fun _ => ⟨_, ["TestY"], rfl, rfl⟩
        · simp at hen3)
  · exact discovery_error_contract.2.2.2.1 "" _ (by
      intro en hen
      rcases List.mem_cons.1 hen with rfl | hen2
      · rfl
      · rcases List.mem_cons.1 hen2 with rfl | hen3
        · decide
        · simp at hen3)
  · exact discovery_error_contract.2.2.2.2 "" _ (by
      intro en hen
      rcases List.mem_cons.1 hen with rfl | hen2
      · exact fun _ => ⟨_, rfl, rfl⟩
      · simp at hen2)

/-- An alphanumeric character is in the allowed class. -/
lemma isAllowedChar_of_alnum (c : Char) (h : isAlnumChar c = true) :
    isAllowedChar c = true := by
  unfold isAllowedChar
  unfold isAlnumChar at h
  simp only [Bool.or_eq_true] at h ⊢
  tauto

/-- The replacement regexp leaves only allowed characters. -/
lemma isAllowedChar_replace (c : Char) :
    isAllowedChar (if isAllowedChar c then c else '-') = true := by
  by_cases h : isAllowedChar c = true
  · simpa [h]
  · simp only [h, Bool.false_eq_true, if_false]
    decide

/-- Every %x digit is alphanumeric. -/
lemma hexDigit_alnum : ∀ m : Nat, m < 16 → isAlnumChar (hexDigit m) = true := by decide

/-- The conditional prepend keeps every character allowed. -/
lemma prependIfNotAlnum_all (name : List Char) (h : ∀ c ∈ name, isAllowedChar c = true) :
    ∀ c ∈ prependIfNotAlnum name, isAllowedChar c = true := by
  unfold prependIfNotAlnum
  match name with
  | [] => decide
  | c0 :: rest =>
    by_cases h0 : isAlnumChar c0 = true
    · simpa [h0] using h
    · simp only [h0, Bool.false_eq_true, if_false]
      intro c hc
      simp only [List.mem_cons] at hc
      rcases hc with rfl | rfl | rfl | rfl | rfl | hc
      · decide
      · decide
      · decide
      · decide
      · exact h _ (List.mem_cons_self _ _)
      · exact h c (List.mem_cons_of_mem _ hc)

/-- Truncation keeps every character allowed. -/
lemma truncate20_all (name : List Char) (h : ∀ c ∈ name, isAllowedChar c = true) :
    ∀ c ∈ truncate20 name, isAllowedChar c = true := by
  unfold truncate20
  split
  · exact fun c hc => h c (List.take_subset _ _ hc)
  · exact h

/-- Truncation bounds the length by 20. -/
lemma truncate20_length (name : List Char) : (truncate20 name).length ≤ 20 := by
  unfold truncate20
  split
  · simpa [List.length_take] using min_le_left 20 name.length
  · omega

/-- C7: for every input rune sequence and every random value drawn by
rand.Intn(65536), the sanitized container name matches the anchored
pattern of one alphanumeric character followed by characters in
[A-Za-z0-9_.-], and its length is at most the fixed "e2e-" prefix (4)
plus 20 plus the fixed "-" and four random hex digits (5). -/
theorem sanitize_name_wellformed (s : List Char) (r : Nat) (hr : r < 65536) :
    matchesNamePattern (sanitizeContainerName s r) = true ∧
    (sanitizeContainerName s r).length ≤ 4 + 20 + 5 := by
  have hall : ∀ c ∈ truncate20 (prependIfNotAlnum
      (s.map (fun c => if isAllowedChar c then c else '-'))), isAllowedChar c = true := by
    refine truncate20_all _ (prependIfNotAlnum_all _ ?_)
    intro c hc
    rcases List.mem_map.1 hc with ⟨x, hx, rfl⟩
    exact isAllowedChar_replace x
  have hhex : ∀ c ∈ hex4 r, isAllowedChar c = true := by
    intro c hc
    unfold hex4 at hc
    simp only [List.mem_cons, List.not_mem_nil, or_false] at hc
    have h16 : ∀ m : Nat, m % 16 < 16 := fun m => Nat.mod_lt _ (by norm_num)
    rcases hc with rfl | rfl | rfl | rfl <;>
      exact isAllowedChar_of_alnum _ (hexDigit_alnum _ (h16 _))
  constructor
  · unfold sanitizeContainerName
    simp only [List.cons_append, matchesNamePattern, Bool.and_eq_true]
    refine ⟨by decide, ?_⟩
    rw [List.all_eq_true]
    intro c hc
    simp only [List.mem_cons, List.mem_append] at hc
    rcases hc with rfl | rfl | rfl | hc | rfl | hc
    · decide
    · decide
    · decide
    · exact hall c hc
    · decide
    · exact hhex c hc
  · unfold sanitizeContainerName
    have hlen : (truncate20 (prependIfNotAlnum
        (s.map (fun c => if isAllowedChar c then c else '-')))).length ≤ 20 :=
      truncate20_length _
    simp only [List.cons_append, List.length_cons, List.length_append, hex4,
      List.length_nil]
    omega

/-- Witness for C7: the sanitized name of a concrete identifier with a
slash and a space, at the random draw 0xabcd. -/
theorem sanitize_name_wellformed_witness :
    matchesNamePattern (sanitizeContainerName ("Test/Example 1".toList) 43981) = true ∧
    (sanitizeContainerName ("Test/Example 1".toList) 43981).length ≤ 4 + 20 + 5 :=
  sanitize_name_wellformed ("Test/Example 1".toList) 43981 (by decide)

/-- C8: the rendered summary header is PASS exactly when the failed
list of the final RunState is empty; and a run over zero discovered
tests reports PASS, prints no per-test PASS or FAIL line, and its
pre-dispatch log line states that there are no tests to run. -/
theorem summary_pass_iff_failed_empty :
    (∀ (nf : Bool) (s : RunState),
      (printSummary nf s).get? 1 = some OutLine.summaryPass ↔ s.failedTests = []) ∧
    (∀ (nf np : Bool) (par : Nat) (oracle : String → Bool) (durOf : String → Nat),
      printSummary nf (runSeq nf oracle durOf []) = [OutLine.blank, OutLine.summaryPass] ∧
      (∀ t, OutLine.passLine t ∉ printSummary nf (runSeq nf oracle durOf []) ∧
        OutLine.failLine t ∉ printSummary nf (runSeq nf oracle durOf [])) ∧
      runInfoLine np par [] = InfoLine.noTestsToRun) := by
  constructor
  · intro nf s
    unfold printSummary
    by_cases hf : s.failedTests = [] <;> simp [hf]
  · intro nf np par oracle durOf
    refine ⟨?_, ?_, ?_⟩
    · rfl
    · intro t
      constructor <;> simp [printSummary, runSeq, initState]
    · rfl

/-- C9: in parallel mode with a configured concurrency limit N ≥ 1,
every state of the dispatch pool reachable from the start of the loop
has at most N Execution Units running, and any step admitting one more
running unit is possible only from a state with strictly fewer than N
running — the (N+1)-th dispatch blocks until a running unit finishes
and releases its semaphore slot. -/
theorem pool_concurrency_bound (N k : Nat) (hN : 1 ≤ N) :
    (∀ s : PoolState, PoolReachable N k s → s.running ≤ N) ∧
    (∀ s s' : PoolState, PoolStep N s s' → s'.running = s.running + 1 → s.running < N) := by
  constructor
  · intro s hs
    induction hs with
    | init => exact Nat.zero_le N
    | step hreach hstep ih =>
      cases hstep with
      | spawn p w r f => exact ih
      | acquire p w r f h => exact h
      | finish p w r f => exact Nat.le_of_succ_le ih
  · intro s s' hstep heq
    cases hstep with
    | spawn p w r f => simp at heq
    | acquire p w r f h => exact h
    | finish p w r f => simp at heq; omega

/-- Witness for C9: with limit 2 over five discovered tests, the
reachable state after spawning two workers and admitting one of them
satisfies the running bound. -/
theorem pool_concurrency_bound_witness :
    (PoolState.mk 3 1 1 0).running ≤ 2 :=
  (pool_concurrency_bound 2 5 (by decide)).1 ⟨3, 1, 1, 0⟩
    (PoolReachable.step
      (PoolReachable.step
        (PoolReachable.step PoolReachable.init (PoolStep.spawn 4 0 0 0))
        (PoolStep.acquire 4 0 0 0 (by decide)))
      (PoolStep.spawn 3 0 1 0))

end GoE2E
